import Mathlib

/-!
Shallow embedding of `src/novograd.js` (the `NovoGrad` class) and proofs of
properties of its specification.

Modelling conventions:
  * a tfjs tensor is a flat vector of reals (`Tensor`); every tensor built by
    the optimizer is either a parameter-shaped vector or the result of
    `tf.norm(...).square()`, a zero-dimensional tensor, which we model as `ℝ`;
  * tensor arithmetic is real arithmetic; a binary tensor op broadcasts a
    length-one operand and throws on incompatible lengths, as tfjs does
    (`bcast`); `tf.norm` is the Euclidean norm;
  * the expression `this.weightDecay * param.data` (lines 22 and 46) is a
    JavaScript number-times-Tensor product: ToPrimitive coerces the tensor
    to NaN, so the product is NaN for every weightDecay, including 0. The
    file therefore has two layers. The real-valued layer (`initParam`,
    `updateParam`, `NovoGrad.step`) embeds the INTENDED tensor-arithmetic
    reading of that term (the reading the spec describes), with the
    coercion repaired; it is used for the claims whose content does not
    depend on that term and for intended-semantics results. The
    `JsNum`-valued layer (`initParamJs`, `updateParamJs`, `JsNovoGrad.step`)
    represents NaN explicitly and evaluates those two lines exactly as
    JavaScript does; the divergence between the two layers is proved at
    concrete inputs (the weight-decay coercion bug);
  * a thrown JS exception is an `Except.error`; a loop that throws midway
    keeps the mutations already performed, so the per-parameter loops return
    the lists as mutated so far together with an optional error;
  * `params` is a fixed list and the identity-keyed `Map` of states is the
    index-aligned list `states : List (Option State)`, `none` meaning that the
    map has no entry for that parameter.
-/

noncomputable section

/-- Flat real vector standing for a tfjs tensor. -/
abbrev Tensor := List ℝ

/-- Sum of squares of the entries of a tensor. -/
def sumSq (t : Tensor) : ℝ := (t.map (fun x => x ^ 2)).sum

/-- Euclidean norm, the default of `tf.norm`. -/
def tfNorm (t : Tensor) : ℝ := Real.sqrt (sumSq t)

/-- Errors thrown by the tensor engine or the JS runtime during `step()`.
`tensorArgError` models `tf.norm(undefined)` when a grad is unset;
`broadcastError` models a binary op on incompatible shapes;
`stateDestructureError` models destructuring `states.get(param)` when the map
has no entry. -/
inductive JsError where
  | tensorArgError
  | broadcastError
  | stateDestructureError
deriving DecidableEq, Repr

/-- Binary elementwise tensor op with tfjs broadcasting of a length-one
operand; incompatible lengths throw. -/
def bcast (f : ℝ → ℝ → ℝ) (a b : Tensor) : Except JsError Tensor :=
  if a.length = b.length then .ok (List.zipWith f a b)
  else
    match a, b with
    | [x], b => .ok (b.map (fun y => f x y))
    | a, [y] => .ok (a.map (fun x => f x y))
    | _, _ => .error .broadcastError

/-- Configuration of the optimizer, with the default values of the JS
constructor (`lr = 0.1`, `betas = [0.95, 0.98]`, `eps = 1e-8`,
`weightDecay = 0`, `gradAveraging = false`). -/
structure Config where
  lr : ℝ := 0.1
  beta1 : ℝ := 0.95
  beta2 : ℝ := 0.98
  eps : ℝ := 1e-8
  weightDecay : ℝ := 0
  gradAveraging : Bool := false

/-- A managed parameter: its current value `data` and the gradient `grad`
supplied by the caller, `none` when unset. -/
structure Param where
  data : Tensor
  grad : Option Tensor

/-- Per-parameter optimizer state, the record stored in `this.states`. -/
structure State where
  step : ℕ
  v : ℝ
  m : Tensor
  gradEMA : Option ℝ

/-- The optimizer object. -/
structure NovoGrad where
  cfg : Config
  params : List Param
  momentumInitialized : Bool
  states : List (Option State)

/-- The JS constructor: stores the configuration and the parameter list
verbatim, sets `momentumInitialized = false` and creates an empty state map.
No validation of any kind is performed. -/
def NovoGrad.construct (params : List Param) (cfg : Config) : NovoGrad :=
  { cfg := cfg
    params := params
    momentumInitialized := false
    states := List.replicate params.length none }

/-- The scalar `stepSize` computed at lines 48 to 51 of `step()`:
`lr * sqrt(1 - beta2 ^ (step + 1)) / (1 - beta1 ^ (step + 1))`. -/
def stepSizeAt (cfg : Config) (stepCount : ℕ) : ℝ :=
  cfg.lr * Real.sqrt (1 - cfg.beta2 ^ (stepCount + 1)) / (1 - cfg.beta1 ^ (stepCount + 1))

/-- The initialization pass body (lines 20 to 25) under the intended tensor
semantics: for one parameter, compute `v = norm(grad)^2`,
`m = grad / (sqrt(v) + eps) + weightDecay * data` and the fresh state
`{step: 0, v, m, gradEMA: null}`; throws where the JS would. The term
`this.weightDecay * param.data` is taken as the scalar broadcast product the
spec intends; the actual JS evaluation of that line, where the term is NaN,
is `initParamJs` below. -/
def initParam (cfg : Config) (p : Param) : Except JsError State :=
  match p.grad with
  | none => .error .tensorArgError
  | some g =>
    let v := tfNorm g ^ 2
    let scaled := g.map (fun x => x / (Real.sqrt v + cfg.eps))
    let wdData := p.data.map (fun x => cfg.weightDecay * x)
    match bcast (fun x y => x + y) scaled wdData with
    | .error e => .error e
    | .ok m => .ok { step := 0, v := v, m := m, gradEMA := none }

/-- The update loop body (lines 29 to 58) for one parameter and its state,
under the intended tensor semantics (the weight-decay term of line 46 read
as the scalar broadcast product the spec intends; the actual JS evaluation,
where that term is NaN, is `updateParamJs` below). Returns the updated
parameter (new `data`) and the persisted state, or the error the JS would
throw. -/
def updateParam (cfg : Config) (p : Param) (s : State) : Except JsError (Param × State) :=
  match p.grad with
  | none => .error .tensorArgError
  | some grad0 =>
    let g2 := tfNorm grad0 ^ 2
    let gradEMA :=
      match s.gradEMA with
      | none => g2
      | some e => e * cfg.beta2 + g2 * (1 - cfg.beta2)
    let grad1 := grad0.map (fun x => x / (Real.sqrt gradEMA + cfg.eps))
    let grad2 := if cfg.gradAveraging then grad1.map (fun x => x * (1 - cfg.beta1)) else grad1
    let g2b := tfNorm grad2 ^ 2
    let v := s.v * cfg.beta2 + g2b * (1 - cfg.beta2)
    let scaled := grad2.map (fun x => x / (Real.sqrt v + cfg.eps))
    let wdData := p.data.map (fun x => cfg.weightDecay * x)
    match bcast (fun x y => x + y) scaled wdData with
    | .error e => .error e
    | .ok inner =>
      match bcast (fun x y => x + y) (s.m.map (fun x => x * cfg.beta1)) inner with
      | .error e => .error e
      | .ok m =>
        let stepSize := stepSizeAt cfg s.step
        match bcast (fun x y => x - y) p.data (m.map (fun x => x * stepSize)) with
        | .error e => .error e
        | .ok data1 =>
          .ok ({ p with data := data1 },
               { step := s.step + 1, v := v, m := m, gradEMA := some gradEMA })

/-- The initialization `forEach` (lines 19 to 27): sets a fresh state for each
parameter in order; a throw keeps the entries already set and leaves the
remaining entries as they were. -/
def runInit (cfg : Config) : List Param → List (Option State) → List (Option State) × Option JsError
  | [], old => (old, none)
  | p :: ps, old =>
    match initParam cfg p with
    | .error e => (old, some e)
    | .ok s =>
      let r := runInit cfg ps old.tail
      (some s :: r.1, r.2)

/-- The update `forEach` (lines 29 to 59): updates each parameter in order;
a throw keeps the parameters already written and leaves the rest untouched. -/
def runUpdate (cfg : Config) :
    List Param → List (Option State) → List Param × List (Option State) × Option JsError
  | [], sts => ([], sts, none)
  | p :: ps, [] => (p :: ps, [], some .stateDestructureError)
  | p :: ps, none :: sts => (p :: ps, none :: sts, some .stateDestructureError)
  | p :: ps, some s :: sts =>
    match updateParam cfg p s with
    | .error e => (p :: ps, some s :: sts, some e)
    | .ok (p1, s1) =>
      let r := runUpdate cfg ps sts
      (p1 :: r.1, some s1 :: r.2.1, r.2.2)

/-- The `step()` method: lazily initializes all states under the global
`momentumInitialized` flag (set only after the whole init pass completes),
then runs the update loop over every parameter. The returned optimizer
reflects all mutations performed before a throw, if any. -/
def NovoGrad.step (o : NovoGrad) : NovoGrad × Option JsError :=
  if o.momentumInitialized then
    let r := runUpdate o.cfg o.params o.states
    ({ o with params := r.1, states := r.2.1 }, r.2.2)
  else
    let ri := runInit o.cfg o.params o.states
    match ri.2 with
    | some e => ({ o with states := ri.1 }, some e)
    | none =>
      let r := runUpdate o.cfg o.params ri.1
      ({ o with params := r.1, states := r.2.1, momentumInitialized := true }, r.2.2)

/-- The caller assigning fresh gradients to the managed parameters before a
`step()` call (the parameters are shared mutable objects). -/
def NovoGrad.setGrads (o : NovoGrad) (gs : List (Option Tensor)) : NovoGrad :=
  { o with params := List.zipWith (fun p g => { p with grad := g }) o.params gs }

/-- Transcription of the specification, section 4.1, initialization steps 1
to 3: `v0 = norm(grad)^2`, `m0 = grad / (sqrt(v0) + eps) + weightDecay * data`,
stored as `{stepCount = 0, secondMoment = v0, firstMoment = m0, gradientEMA
unset}`. Used to compare the code path against the spec recurrence. -/
def specInit (cfg : Config) (data grad : Tensor) : State :=
  let v0 := tfNorm grad ^ 2
  let m0 := List.zipWith (fun a b => a + b)
      (grad.map (fun x => x / (Real.sqrt v0 + cfg.eps)))
      (data.map (fun x => cfg.weightDecay * x))
  { step := 0, v := v0, m := m0, gradEMA := none }

/-- Transcription of the specification, section 4.1, update steps 1 to 11,
written in the order and orientation of the spec text. Returns the new `data`
and the persisted state. -/
def specUpdate (cfg : Config) (data grad : Tensor) (s : State) : Tensor × State :=
  let g2 := tfNorm grad ^ 2
  let ema :=
    match s.gradEMA with
    | none => g2
    | some e => cfg.beta2 * e + (1 - cfg.beta2) * g2
  let ng0 := grad.map (fun x => x / (Real.sqrt ema + cfg.eps))
  let ng := if cfg.gradAveraging then ng0.map (fun x => (1 - cfg.beta1) * x) else ng0
  let v1 := cfg.beta2 * s.v + (1 - cfg.beta2) * (tfNorm ng ^ 2)
  let m1 := List.zipWith (fun a b => a + b)
      (s.m.map (fun x => cfg.beta1 * x))
      (List.zipWith (fun a b => a + b)
        (ng.map (fun x => x / (Real.sqrt v1 + cfg.eps)))
        (data.map (fun x => cfg.weightDecay * x)))
  let d1 := List.zipWith (fun a b => a - b) data (m1.map (fun x => stepSizeAt cfg s.step * x))
  (d1, { step := s.step + 1, v := v1, m := m1, gradEMA := some ema })

/-- The configuration validity predicate of spec section 7: both decay rates
in (0,1), `eps > 0`, `lr >= 0` and `weightDecay >= 0`. -/
def specConfigOK (cfg : Config) : Prop :=
  0 < cfg.beta1 ∧ cfg.beta1 < 1 ∧ 0 < cfg.beta2 ∧ cfg.beta2 < 1 ∧
    0 < cfg.eps ∧ 0 ≤ cfg.lr ∧ 0 ≤ cfg.weightDecay

theorem bcast_eq_zipWith (f : ℝ → ℝ → ℝ) (a b : Tensor) (h : a.length = b.length) :
    bcast f a b = .ok (List.zipWith f a b) := by
  simp [bcast, h]

theorem initParam_eq (cfg : Config) (p : Param) (g : Tensor)
    (hg : p.grad = some g) (hlen : g.length = p.data.length) :
    initParam cfg p = .ok (specInit cfg p.data g) := by
  have h1 : (g.map (fun x => x / (Real.sqrt (tfNorm g ^ 2) + cfg.eps))).length
      = (p.data.map (fun x => cfg.weightDecay * x)).length := by simp [hlen]
  simp only [initParam, hg, bcast_eq_zipWith _ _ _ h1, specInit]

theorem updateParam_eq (cfg : Config) (p : Param) (s : State) (g : Tensor)
    (hg : p.grad = some g) (hlen : g.length = p.data.length)
    (hm : s.m.length = p.data.length) :
    updateParam cfg p s =
      .ok ({ p with data := (specUpdate cfg p.data g s).1 },
           (specUpdate cfg p.data g s).2) := by
  have hsc : ∀ c : ℝ, (fun x : ℝ => x * c) = (fun x : ℝ => c * x) := by
    intro c; funext x; ring
  have hv : ∀ X : ℝ, s.v * cfg.beta2 + X * (1 - cfg.beta2)
      = cfg.beta2 * s.v + (1 - cfg.beta2) * X := by
    intro X; ring
  cases hge : s.gradEMA with
  | none =>
    cases hb : cfg.gradAveraging with
    | false =>
      simp only [updateParam, specUpdate, hg, hge, hb, Bool.false_eq_true, if_false]
      rw [hv, hsc cfg.beta1, hsc (stepSizeAt cfg s.step)]
      simp [bcast, hlen, hm]
    | true =>
      simp only [updateParam, specUpdate, hg, hge, hb, if_true]
      rw [hsc (1 - cfg.beta1), hv, hsc cfg.beta1, hsc (stepSizeAt cfg s.step)]
      simp [bcast, hlen, hm]
  | some e =>
    have hema : ∀ X : ℝ, e * cfg.beta2 + X * (1 - cfg.beta2)
        = cfg.beta2 * e + (1 - cfg.beta2) * X := by
      intro X; ring
    cases hb : cfg.gradAveraging with
    | false =>
      simp only [updateParam, specUpdate, hg, hge, hb, Bool.false_eq_true, if_false]
      rw [hema, hv, hsc cfg.beta1, hsc (stepSizeAt cfg s.step)]
      simp [bcast, hlen, hm]
    | true =>
      simp only [updateParam, specUpdate, hg, hge, hb, if_true]
      rw [hema, hsc (1 - cfg.beta1), hv, hsc cfg.beta1, hsc (stepSizeAt cfg s.step)]
      simp [bcast, hlen, hm]

theorem sumSq_nonneg (t : Tensor) : 0 ≤ sumSq t := by
  apply List.sum_nonneg
  intro x hx
  simp only [List.mem_map] at hx
  obtain ⟨y, _, rfl⟩ := hx
  positivity

theorem tfNorm_sq (t : Tensor) : tfNorm t ^ 2 = sumSq t :=
  Real.sq_sqrt (sumSq_nonneg t)

/-- Validity of one parameter and its state entry for the update loop: the
entry is present, the gradient is set, and the shapes line up. -/
def UpdOK (p : Param) (os : Option State) : Prop :=
  ∃ s g, os = some s ∧ p.grad = some g ∧ g.length = p.data.length
    ∧ s.m.length = p.data.length

/-- Validity of one parameter for the initialization pass: the gradient is a
set tensor of the shape of the data. -/
def GradOK (p : Param) : Prop := ∃ g, p.grad = some g ∧ g.length = p.data.length

theorem runUpdate_spec (cfg : Config) (ps : List Param) (sts : List (Option State))
    (h : List.Forall₂ UpdOK ps sts) :
    (runUpdate cfg ps sts).2.2 = none
    ∧ (runUpdate cfg ps sts).1.length = ps.length
    ∧ (runUpdate cfg ps sts).2.1.length = ps.length
    ∧ ∀ (i : ℕ) (p : Param) (s : State) (g : Tensor),
        ps[i]? = some p → sts[i]? = some (some s) → p.grad = some g →
        (runUpdate cfg ps sts).1[i]? = some { p with data := (specUpdate cfg p.data g s).1 }
        ∧ (runUpdate cfg ps sts).2.1[i]? = some (some (specUpdate cfg p.data g s).2) := by
  induction h with
  | nil => simp [runUpdate]
  | @cons p os ps sts hpo hrest ih =>
    obtain ⟨s, g, rfl, hg, hlen, hm⟩ := hpo
    have hu := updateParam_eq cfg p s g hg hlen hm
    refine ⟨?_, ?_, ?_, ?_⟩
    · simp [runUpdate, hu, ih.1]
    · simp [runUpdate, hu, ih.2.1]
    · simp [runUpdate, hu, ih.2.2.1]
    · intro i q s2 g2 hq hs2 hg2
      cases i with
      | zero =>
        simp only [List.getElem?_cons_zero, Option.some.injEq] at hq hs2
        subst hq; subst hs2
        rw [hg] at hg2
        cases hg2
        constructor <;> simp [runUpdate, hu]
      | succ n =>
        simp only [List.getElem?_cons_succ] at hq hs2
        have hrec := ih.2.2.2 n q s2 g2 hq hs2 hg2
        constructor <;> simp [runUpdate, hu, hrec.1, hrec.2]

theorem runInit_spec (cfg : Config) :
    ∀ (ps : List Param) (old : List (Option State)), (∀ p ∈ ps, GradOK p) →
      (runInit cfg ps old).2 = none
    ∧ (∀ (i : ℕ) (p : Param) (g : Tensor), ps[i]? = some p → p.grad = some g →
        (runInit cfg ps old).1[i]? = some (some (specInit cfg p.data g)))
    ∧ (old.length = ps.length → List.Forall₂ UpdOK ps (runInit cfg ps old).1) := by
  intro ps
  induction ps with
  | nil =>
    intro old h
    refine ⟨rfl, by simp, ?_⟩
    intro h0
    have : old = [] := List.eq_nil_of_length_eq_zero h0
    subst this
    exact List.Forall₂.nil
  | cons p ps ih =>
    intro old h
    obtain ⟨g, hg, hlen⟩ := h p (List.mem_cons_self p ps)
    have hi := initParam_eq cfg p g hg hlen
    have ihh := ih old.tail (fun q hq => h q (List.mem_cons_of_mem _ hq))
    refine ⟨?_, ?_, ?_⟩
    · simp [runInit, hi, ihh.1]
    · intro i q g2 hq hg2
      cases i with
      | zero =>
        simp only [List.getElem?_cons_zero, Option.some.injEq] at hq
        subst hq
        rw [hg] at hg2
        cases hg2
        simp [runInit, hi]
      | succ n =>
        simp only [List.getElem?_cons_succ] at hq
        simp [runInit, hi, ihh.2.1 n q g2 hq hg2]
    · intro hlen2
      have : (runInit cfg (p :: ps) old).1
          = some (specInit cfg p.data g) :: (runInit cfg ps old.tail).1 := by
        simp [runInit, hi]
      rw [this]
      refine List.Forall₂.cons ⟨specInit cfg p.data g, g, rfl, hg, hlen, ?_⟩ ?_
      · simp [specInit, hlen]
      · apply ihh.2.2
        simp at hlen2
        simp [List.length_tail, hlen2]

/-- All managed parameters have set gradients of the right shape and present
state entries whose first moment has the shape of the data. -/
def NovoGrad.Ready (o : NovoGrad) : Prop := List.Forall₂ UpdOK o.params o.states

theorem step_ready_spec (o : NovoGrad)
    (hflag : o.momentumInitialized = true) (hready : o.Ready) :
    o.step.2 = none
    ∧ o.step.1.momentumInitialized = true
    ∧ o.step.1.params.length = o.params.length
    ∧ o.step.1.states.length = o.params.length
    ∧ ∀ (i : ℕ) (p : Param) (s : State) (g : Tensor),
        o.params[i]? = some p → o.states[i]? = some (some s) → p.grad = some g →
        o.step.1.params[i]? = some { p with data := (specUpdate o.cfg p.data g s).1 }
        ∧ o.step.1.states[i]? = some (some (specUpdate o.cfg p.data g s).2) := by
  have hr := runUpdate_spec o.cfg o.params o.states hready
  simp only [NovoGrad.step, hflag, if_true]
  exact ⟨hr.1, trivial, hr.2.1, hr.2.2.1, hr.2.2.2⟩

theorem step_fresh_spec (o : NovoGrad)
    (hflag : o.momentumInitialized = false)
    (hlen : o.states.length = o.params.length)
    (hgrads : ∀ p ∈ o.params, GradOK p) :
    o.step.2 = none
    ∧ o.step.1.momentumInitialized = true
    ∧ o.step.1.params.length = o.params.length
    ∧ o.step.1.states.length = o.params.length
    ∧ ∀ (i : ℕ) (p : Param) (g : Tensor),
        o.params[i]? = some p → p.grad = some g →
        o.step.1.params[i]? =
          some { p with data := (specUpdate o.cfg p.data g (specInit o.cfg p.data g)).1 }
        ∧ o.step.1.states[i]? =
          some (some ((specUpdate o.cfg p.data g (specInit o.cfg p.data g)).2)) := by
  have hi := runInit_spec o.cfg o.params o.states hgrads
  have hready := hi.2.2 hlen
  have hr := runUpdate_spec o.cfg o.params (runInit o.cfg o.params o.states).1 hready
  have hstep : o.step =
      ({ o with params := (runUpdate o.cfg o.params (runInit o.cfg o.params o.states).1).1,
                states := (runUpdate o.cfg o.params (runInit o.cfg o.params o.states).1).2.1,
                momentumInitialized := true },
       (runUpdate o.cfg o.params (runInit o.cfg o.params o.states).1).2.2) := by
    simp only [NovoGrad.step, hflag, Bool.false_eq_true, if_false]
    rw [hi.1]
  rw [hstep]
  refine ⟨hr.1, rfl, hr.2.1, hr.2.2.1, ?_⟩
  intro i p g hp hg
  exact hr.2.2.2 i p (specInit o.cfg p.data g) g hp (hi.2.1 i p g hp hg) hg

/-- The normalized gradient computed on the very first call, where the EMA is
still unset and therefore equals `norm(grad)^2`. -/
def ngFirst (cfg : Config) (g : Tensor) : Tensor :=
  let ng0 := g.map (fun x => x / (Real.sqrt (tfNorm g ^ 2) + cfg.eps))
  if cfg.gradAveraging then ng0.map (fun x => (1 - cfg.beta1) * x) else ng0

/-- Intended-semantics recurrence: under the tensor-arithmetic reading of
the weight-decay term (the coercion bug of line 46 repaired), a `step()`
call with a valid configuration and well-formed gradients updates each
parameter whose OptimizerState exists exactly by the spec recurrence
`specUpdate` (section 4.1 steps 1 to 11): `data` is overwritten with
`data - stepSize * m'` and `stepCount, secondMoment, firstMoment,
gradientEMA` are persisted as `stepCount + 1, v', m', gradientEMA'`.
The program as written does not follow this recurrence: see the code-bug
theorem for C1 below. -/
theorem novograd_step_follows_spec_recurrence (o : NovoGrad)
    (hcfg : specConfigOK o.cfg) (hflag : o.momentumInitialized = true)
    (hready : o.Ready) :
    o.step.2 = none ∧
    ∀ (i : ℕ) (p : Param) (s : State) (g : Tensor),
      o.params[i]? = some p → o.states[i]? = some (some s) → p.grad = some g →
      o.step.1.params[i]? = some { p with data := (
          List.zipWith (fun a b => a - b) p.data
            (((specUpdate o.cfg p.data g s).2.m).map fun x => stepSizeAt o.cfg s.step * x)) }
      ∧ o.step.1.states[i]? = some (some (specUpdate o.cfg p.data g s).2)
      ∧ (specUpdate o.cfg p.data g s).2.step = s.step + 1 := by
  have h := step_ready_spec o hflag hready
  refine ⟨h.1, ?_⟩
  intro i p s g hp hs hg
  have hh := h.2.2.2.2 i p s g hp hs hg
  exact ⟨hh.1, hh.2, rfl⟩

/-- Witness parameter, state and optimizer used to instantiate the claim
theorems at concrete inputs. -/
def pW : Param := { data := [1], grad := some [1] }

def sW : State := { step := 1, v := 1, m := [1], gradEMA := some 1 }

def oW : NovoGrad :=
  { cfg := {}, params := [pW], momentumInitialized := true, states := [some sW] }

def oF : NovoGrad := NovoGrad.construct [pW] {}

theorem oW_ready : oW.Ready :=
  List.Forall₂.cons ⟨sW, [1], rfl, rfl, rfl, rfl⟩ List.Forall₂.nil

theorem cfgW_ok : specConfigOK ({} : Config) := by
  refine ⟨?_, ?_, ?_, ?_, ?_, ?_, ?_⟩ <;> norm_num

theorem novograd_step_follows_spec_recurrence_inst :
    specConfigOK oW.cfg ∧ oW.momentumInitialized = true ∧ oW.Ready ∧ oW.step.2 = none :=
  ⟨cfgW_ok, rfl, oW_ready,
    (novograd_step_follows_spec_recurrence oW cfgW_ok rfl oW_ready).1⟩

/-- C6: for every valid configuration and non-empty parameter list with
well-formed gradients, after the first `step()` call every parameter has a
state with `stepCount = 1` and `gradientEMA` equal to the squared Euclidean
norm of the gradient of that call. -/
theorem novograd_first_step_state (o : NovoGrad)
    (hcfg : specConfigOK o.cfg) (hflag : o.momentumInitialized = false)
    (hne : o.params ≠ [])
    (hlen : o.states.length = o.params.length)
    (hgrads : ∀ p ∈ o.params, GradOK p) :
    o.step.2 = none ∧
    ∀ (i : ℕ) (p : Param) (g : Tensor),
      o.params[i]? = some p → p.grad = some g →
      ∃ s : State, o.step.1.states[i]? = some (some s)
        ∧ s.step = 1 ∧ s.gradEMA = some (sumSq g) := by
  have h := step_fresh_spec o hflag hlen hgrads
  refine ⟨h.1, ?_⟩
  intro i p g hp hg
  refine ⟨_, (h.2.2.2.2 i p g hp hg).2, rfl, ?_⟩
  simp [specUpdate, specInit, tfNorm_sq]

theorem oF_grads : ∀ p ∈ oF.params, GradOK p := by
  intro p hp
  simp only [oF, NovoGrad.construct, List.mem_singleton] at hp
  subst hp
  exact ⟨[1], rfl, rfl⟩

theorem novograd_first_step_state_inst :
    specConfigOK oF.cfg ∧ oF.momentumInitialized = false ∧ oF.params ≠ []
      ∧ oF.states.length = oF.params.length ∧ (∀ p ∈ oF.params, GradOK p)
      ∧ oF.step.2 = none :=
  ⟨cfgW_ok, rfl, by simp [oF, NovoGrad.construct], rfl, oF_grads,
    (novograd_first_step_state oF cfgW_ok rfl (by simp [oF, NovoGrad.construct]) rfl oF_grads).1⟩

/-- Intended-semantics seeding (coercion bug of lines 22 and 46 repaired):
on the very first `step()` call the values stored by the initialization pass
are not discarded: the update pass of the same call reads them as the prior
state, so the persisted state is `specUpdate` applied to `specInit`; in
particular the first persisted `secondMoment` is
`beta2 * v0 + (1 - beta2) * norm(normalizedGrad)^2` and the first persisted
`firstMoment` starts with the term `beta1 * m0`. In the program as written
`m0` and the first persisted `firstMoment` are NaN: see the code-bug theorem
for C9 below. -/
theorem novograd_init_values_feed_first_update (o : NovoGrad)
    (hflag : o.momentumInitialized = false)
    (hlen : o.states.length = o.params.length)
    (hgrads : ∀ p ∈ o.params, GradOK p) :
    o.step.2 = none ∧
    ∀ (i : ℕ) (p : Param) (g : Tensor),
      o.params[i]? = some p → p.grad = some g →
      o.step.1.states[i]? =
        some (some ((specUpdate o.cfg p.data g (specInit o.cfg p.data g)).2))
      ∧ ((specUpdate o.cfg p.data g (specInit o.cfg p.data g)).2).v
          = o.cfg.beta2 * (specInit o.cfg p.data g).v
            + (1 - o.cfg.beta2) * (tfNorm (ngFirst o.cfg g) ^ 2)
      ∧ ((specUpdate o.cfg p.data g (specInit o.cfg p.data g)).2).m
          = List.zipWith (fun a b => a + b)
              ((specInit o.cfg p.data g).m.map (fun x => o.cfg.beta1 * x))
              (List.zipWith (fun a b => a + b)
                ((ngFirst o.cfg g).map (fun x => x /
                  (Real.sqrt (((specUpdate o.cfg p.data g (specInit o.cfg p.data g)).2).v)
                    + o.cfg.eps)))
                (p.data.map (fun x => o.cfg.weightDecay * x))) := by
  have h := step_fresh_spec o hflag hlen hgrads
  refine ⟨h.1, ?_⟩
  intro i p g hp hg
  refine ⟨(h.2.2.2.2 i p g hp hg).2, ?_, ?_⟩ <;>
    simp [specUpdate, specInit, ngFirst]

theorem novograd_init_values_feed_first_update_inst :
    oF.momentumInitialized = false ∧ oF.states.length = oF.params.length
      ∧ (∀ p ∈ oF.params, GradOK p) ∧ oF.step.2 = none :=
  ⟨rfl, rfl, oF_grads,
    (novograd_init_values_feed_first_update oF rfl rfl oF_grads).1⟩

theorem updateParam_grad_eq (cfg : Config) (p : Param) (s : State)
    (r : Param × State) (h : updateParam cfg p s = .ok r) : r.1.grad = p.grad := by
  simp only [updateParam] at h
  repeat' split at h
  all_goals first
    | (cases h; rfl)
    | cases h

theorem runUpdate_grads (cfg : Config) :
    ∀ (ps : List Param) (sts : List (Option State)),
      (runUpdate cfg ps sts).1.map Param.grad = ps.map Param.grad
  | [], _ => rfl
  | _ :: _, [] => rfl
  | _ :: _, none :: _ => rfl
  | p :: ps, some s :: sts => by
    cases hu : updateParam cfg p s with
    | error e => simp [runUpdate, hu]
    | ok r =>
      have := updateParam_grad_eq cfg p s r hu
      simp [runUpdate, hu, this, runUpdate_grads cfg ps sts]

/-- C8: `step()` never writes the `grad` field of any managed parameter, on
any path, including the error paths: only `data` is ever reassigned. -/
theorem novograd_step_preserves_grad (o : NovoGrad) :
    o.step.1.params.map Param.grad = o.params.map Param.grad := by
  unfold NovoGrad.step
  split
  · exact runUpdate_grads o.cfg o.params o.states
  · dsimp only
    split
    · rfl
    · exact runUpdate_grads o.cfg o.params (runInit o.cfg o.params o.states).1

/-- Configuration with `beta1 = 1.5`, outside (0,1): invalid per the spec. -/
def badCfg : Config := { beta1 := 1.5 }

/-- C2 counterexample: the spec says an out-of-range decay rate raises
ConfigurationError at construction, but the constructor contains no
validation: with `beta1 = 1.5` construction succeeds normally, stores the
invalid configuration verbatim and creates no state. -/
theorem novograd_construct_accepts_invalid_beta1 :
    ¬ specConfigOK badCfg
    ∧ NovoGrad.construct [pW] badCfg
        = { cfg := badCfg, params := [pW], momentumInitialized := false,
            states := [none] } := by
  constructor
  · intro h
    have h1 := h.2.1
    norm_num [badCfg] at h1
  · rfl

/-- C2 amended: construction never raises: the constructor performs no
validation, succeeds for every configuration (inside or outside the spec
ranges), stores it verbatim and leaves no state created. -/
theorem novograd_construct_never_validates (ps : List Param) (cfg : Config) :
    NovoGrad.construct ps cfg
      = { cfg := cfg, params := ps, momentumInitialized := false,
          states := List.replicate ps.length none } := rfl

theorem initParam_grad_some (cfg : Config) (p : Param) (s' : State)
    (h : initParam cfg p = .ok s') : p.grad ≠ none := by
  intro hn
  simp [initParam, hn] at h

theorem updateParam_grad_some (cfg : Config) (p : Param) (s : State)
    (r : Param × State) (h : updateParam cfg p s = .ok r) : p.grad ≠ none := by
  intro hn
  simp [updateParam, hn] at h

theorem runInit_err (cfg : Config) :
    ∀ (ps : List Param) (old : List (Option State)),
      (∃ p ∈ ps, p.grad = none) → (runInit cfg ps old).2.isSome
  | [], _ => by rintro ⟨p, hp, -⟩; cases hp
  | p :: ps, old => by
    rintro ⟨q, hq, hqg⟩
    cases hi : initParam cfg p with
    | error e => simp [runInit, hi]
    | ok s =>
      rcases List.mem_cons.mp hq with rfl | hq2
      · exact absurd hqg (initParam_grad_some cfg q s hi)
      · simpa [runInit, hi] using runInit_err cfg ps old.tail ⟨q, hq2, hqg⟩

theorem runUpdate_err (cfg : Config) :
    ∀ (ps : List Param) (sts : List (Option State)),
      (∃ p ∈ ps, p.grad = none) → (runUpdate cfg ps sts).2.2.isSome
  | [], _ => by rintro ⟨p, hp, -⟩; cases hp
  | _ :: _, [] => by intro _; simp [runUpdate]
  | _ :: _, none :: _ => by intro _; simp [runUpdate]
  | p :: ps, some s :: sts => by
    rintro ⟨q, hq, hqg⟩
    cases hu : updateParam cfg p s with
    | error e => simp [runUpdate, hu]
    | ok r =>
      rcases List.mem_cons.mp hq with rfl | hq2
      · exact absurd hqg (updateParam_grad_some cfg q s r hu)
      · simpa [runUpdate, hu] using runUpdate_err cfg ps sts ⟨q, hq2, hqg⟩

/-- C3 amended: an unset gradient is detected synchronously: a `step()` call
in which the `grad` of some managed parameter is unset always reports an error to
the caller (the tensor-engine error, not a dedicated MissingGradientError
type). The all-or-nothing part of the claim is false: see the matching
counterexample, where the failing call has already written the data of an
earlier parameter. -/
theorem novograd_step_reports_missing_grad (o : NovoGrad)
    (h : ∃ p ∈ o.params, p.grad = none) : o.step.2.isSome := by
  unfold NovoGrad.step
  dsimp only
  split
  · exact runUpdate_err o.cfg o.params o.states h
  · have hin := runInit_err o.cfg o.params o.states h
    cases hri : (runInit o.cfg o.params o.states).2 with
    | none => rw [hri] at hin; simp at hin
    | some e => simp [hri]

/-- Parameter whose gradient was never set. -/
def pNoGrad : Param := { data := [1], grad := none }

def oNG : NovoGrad := NovoGrad.construct [pNoGrad] {}

theorem novograd_step_reports_missing_grad_inst :
    (∃ p ∈ oNG.params, p.grad = none) ∧ oNG.step.2.isSome :=
  ⟨⟨pNoGrad, List.mem_singleton.mpr rfl, rfl⟩,
    novograd_step_reports_missing_grad oNG ⟨pNoGrad, List.mem_singleton.mpr rfl, rfl⟩⟩

/-- C7 counterexample: on an optimizer whose single parameter has an unset
gradient, the first `step()` call creates no OptimizerState at all and leaves
the global flag unset, contradicting the claim that the state entries are
created during the first `step()` call for all parameters simultaneously;
a later call would therefore re-run initialization. -/
theorem novograd_failed_first_step_creates_no_state :
    oNG.step.2 = some JsError.tensorArgError
    ∧ oNG.step.1.states = [none]
    ∧ oNG.step.1.momentumInitialized = false := by
  refine ⟨?_, ?_, ?_⟩ <;> rfl

/-- C7 amended: in any sequence of successful `step()` calls (all gradients
present with matching shapes), no state exists at construction, the first
call creates exactly one state entry per parameter and flips the global flag
forward, and every later call keeps the flag set, keeps exactly one entry per
parameter and evolves each entry in place, advancing its `stepCount` by one
(never recreating or removing it). -/
theorem novograd_state_lifecycle :
    (∀ (ps : List Param) (cfg : Config),
        (NovoGrad.construct ps cfg).momentumInitialized = false
        ∧ ∀ os ∈ (NovoGrad.construct ps cfg).states, os = none)
    ∧ (∀ o : NovoGrad, o.momentumInitialized = false →
        o.states.length = o.params.length → (∀ p ∈ o.params, GradOK p) →
        o.step.2 = none ∧ o.step.1.momentumInitialized = true
        ∧ o.step.1.states.length = o.params.length
        ∧ ∀ i : ℕ, i < o.params.length →
            ∃ s : State, o.step.1.states[i]? = some (some s))
    ∧ (∀ o : NovoGrad, o.momentumInitialized = true → o.Ready →
        o.step.2 = none ∧ o.step.1.momentumInitialized = true
        ∧ o.step.1.states.length = o.states.length
        ∧ ∀ (i : ℕ) (p : Param) (s : State), o.params[i]? = some p →
            o.states[i]? = some (some s) →
            ∃ s2 : State, o.step.1.states[i]? = some (some s2)
              ∧ s2.step = s.step + 1) := by
  refine ⟨?_, ?_, ?_⟩
  · intro ps cfg
    refine ⟨rfl, ?_⟩
    intro os hos
    simp only [NovoGrad.construct, List.eq_of_mem_replicate hos]
  · intro o hflag hlen hgrads
    have h := step_fresh_spec o hflag hlen hgrads
    refine ⟨h.1, h.2.1, h.2.2.2.1, ?_⟩
    intro i hi
    have hp : o.params[i]? = some o.params[i] := List.getElem?_eq_getElem hi
    obtain ⟨g, hg, -⟩ := hgrads _ (List.getElem?_mem hp)
    exact ⟨_, (h.2.2.2.2 i _ g hp hg).2⟩
  · intro o hflag hready
    have h := step_ready_spec o hflag hready
    have hlen2 : o.states.length = o.params.length := hready.length_eq.symm
    refine ⟨h.1, h.2.1, by rw [h.2.2.2.1, hlen2], ?_⟩
    intro i p s hp hs
    have hip : i < o.params.length := by
      by_contra hige
      rw [List.getElem?_eq_none (Nat.le_of_not_lt hige)] at hp
      cases hp
    have his : i < o.states.length := by rw [hlen2]; exact hip
    have hupd := hready.get hip his
    rw [List.get_eq_getElem, List.get_eq_getElem,
      (List.getElem?_eq_some.mp hp).choose_spec, (List.getElem?_eq_some.mp hs).choose_spec]
      at hupd
    obtain ⟨sfull, g, hos, hg, -, -⟩ := hupd
    cases hos
    exact ⟨_, (h.2.2.2.2 i p s g hp hs hg).2, rfl⟩

theorem novograd_state_lifecycle_inst :
    ((NovoGrad.construct [pW] {}).momentumInitialized = false)
    ∧ (oF.momentumInitialized = false ∧ oF.states.length = oF.params.length
        ∧ (∀ p ∈ oF.params, GradOK p) ∧ oF.step.2 = none)
    ∧ (oW.momentumInitialized = true ∧ oW.Ready ∧ oW.step.2 = none) :=
  ⟨(novograd_state_lifecycle.1 [pW] {}).1,
   ⟨rfl, rfl, oF_grads, (novograd_state_lifecycle.2.1 oF rfl rfl oF_grads).1⟩,
   ⟨rfl, oW_ready, (novograd_state_lifecycle.2.2 oW rfl oW_ready).1⟩⟩

/-- C4 counterexample: at the default configuration the claimed behavior of
`stepSize` fails on both counts that are checkable at concrete inputs: the
value strictly DEcreases from `stepCount = 0` to `stepCount = 1` (so it is
not strictly increasing), and its value at `stepCount = 0` is
`lr * sqrt(1 - beta2) / (1 - beta1)`, not the claimed `lr * sqrt(1 - beta2)`. -/
theorem novograd_stepSize_not_increasing_at_defaults :
    stepSizeAt {} 1 < stepSizeAt {} 0
    ∧ stepSizeAt {} 0 ≠ ({} : Config).lr * Real.sqrt (1 - ({} : Config).beta2) := by
  have ha := Real.sq_sqrt (show (0:ℝ) ≤ 0.0396 by norm_num)
  have hb := Real.sq_sqrt (show (0:ℝ) ≤ 0.02 by norm_num)
  have ha0 := Real.sqrt_nonneg (0.0396 : ℝ)
  have hb0 : (0:ℝ) < Real.sqrt 0.02 := Real.sqrt_pos.mpr (by norm_num)
  constructor
  · show ({} : Config).lr * Real.sqrt (1 - ({} : Config).beta2 ^ (1 + 1))
        / (1 - ({} : Config).beta1 ^ (1 + 1))
      < ({} : Config).lr * Real.sqrt (1 - ({} : Config).beta2 ^ (0 + 1))
        / (1 - ({} : Config).beta1 ^ (0 + 1))
    have e1 : (1:ℝ) - ({} : Config).beta2 ^ (1 + 1) = 0.0396 := by norm_num
    have e2 : (1:ℝ) - ({} : Config).beta2 ^ (0 + 1) = 0.02 := by norm_num
    rw [e1, e2]
    have e3 : (1:ℝ) - ({} : Config).beta1 ^ (1 + 1) = 0.0975 := by norm_num
    have e4 : (1:ℝ) - ({} : Config).beta1 ^ (0 + 1) = 0.05 := by norm_num
    rw [e3, e4]
    show (0.1:ℝ) * Real.sqrt 0.0396 / 0.0975 < 0.1 * Real.sqrt 0.02 / 0.05
    rw [div_lt_div_iff₀ (by norm_num) (by norm_num)]
    nlinarith [mul_nonneg ha0 hb0.le]
  · show ({} : Config).lr * Real.sqrt (1 - ({} : Config).beta2 ^ (0 + 1))
        / (1 - ({} : Config).beta1 ^ (0 + 1))
      ≠ ({} : Config).lr * Real.sqrt (1 - ({} : Config).beta2)
    have e2 : (1:ℝ) - ({} : Config).beta2 ^ (0 + 1) = 0.02 := by norm_num
    have e5 : (1:ℝ) - ({} : Config).beta2 = 0.02 := by norm_num
    have e4 : (1:ℝ) - ({} : Config).beta1 ^ (0 + 1) = 0.05 := by norm_num
    rw [e2, e5, e4]
    show (0.1:ℝ) * Real.sqrt 0.02 / 0.05 ≠ 0.1 * Real.sqrt 0.02
    intro heq
    rw [div_eq_iff (by norm_num : (5e-2:ℝ) ≠ 0)] at heq
    nlinarith [hb0]

/-- C4 amended: under a valid configuration, `stepSize` at `stepCount = 0`
equals `lr * sqrt(1 - beta2) / (1 - beta1)` (the spec swapped this with the
limit), and as `stepCount` tends to infinity `stepSize` tends to `lr`; it is
not strictly increasing in general (at the defaults it strictly decreases,
see the counterexample). -/
theorem novograd_stepSize_initial_value_and_limit (cfg : Config)
    (hb1 : 0 < cfg.beta1) (hb1' : cfg.beta1 < 1)
    (hb2 : 0 < cfg.beta2) (hb2' : cfg.beta2 < 1) :
    stepSizeAt cfg 0 = cfg.lr * Real.sqrt (1 - cfg.beta2) / (1 - cfg.beta1)
    ∧ Filter.Tendsto (stepSizeAt cfg) Filter.atTop (nhds cfg.lr) := by
  constructor
  · simp [stepSizeAt]
  · have h1 : Filter.Tendsto (fun k : ℕ => cfg.beta1 ^ (k + 1)) Filter.atTop (nhds 0) :=
      (tendsto_pow_atTop_nhds_zero_of_lt_one hb1.le hb1').comp
        (Filter.tendsto_add_atTop_nat 1)
    have h2 : Filter.Tendsto (fun k : ℕ => cfg.beta2 ^ (k + 1)) Filter.atTop (nhds 0) :=
      (tendsto_pow_atTop_nhds_zero_of_lt_one hb2.le hb2').comp
        (Filter.tendsto_add_atTop_nat 1)
    have hs : Filter.Tendsto (fun k : ℕ => 1 - cfg.beta2 ^ (k + 1)) Filter.atTop (nhds 1) := by
      simpa using tendsto_const_nhds.sub h2
    have hq : Filter.Tendsto (fun k : ℕ => Real.sqrt (1 - cfg.beta2 ^ (k + 1)))
        Filter.atTop (nhds (Real.sqrt 1)) :=
      (Real.continuous_sqrt.tendsto 1).comp hs
    rw [Real.sqrt_one] at hq
    have hnum : Filter.Tendsto (fun k : ℕ => cfg.lr * Real.sqrt (1 - cfg.beta2 ^ (k + 1)))
        Filter.atTop (nhds (cfg.lr * 1)) := tendsto_const_nhds.mul hq
    have hden : Filter.Tendsto (fun k : ℕ => 1 - cfg.beta1 ^ (k + 1)) Filter.atTop (nhds 1) := by
      simpa using tendsto_const_nhds.sub h1
    have := hnum.div hden one_ne_zero
    simpa [stepSizeAt, mul_one] using this

theorem novograd_stepSize_initial_value_and_limit_inst :
    (0 < ({} : Config).beta1 ∧ ({} : Config).beta1 < 1
      ∧ 0 < ({} : Config).beta2 ∧ ({} : Config).beta2 < 1)
    ∧ stepSizeAt {} 0 = ({} : Config).lr * Real.sqrt (1 - ({} : Config).beta2)
        / (1 - ({} : Config).beta1) :=
  ⟨⟨by norm_num, by norm_num, by norm_num, by norm_num⟩,
    (novograd_stepSize_initial_value_and_limit {} (by norm_num) (by norm_num)
      (by norm_num) (by norm_num)).1⟩

theorem tfNorm_replicate_zero (n : ℕ) : tfNorm (List.replicate n (0:ℝ)) = 0 := by
  simp [tfNorm, sumSq, List.map_replicate, List.sum_replicate]

theorem map_mul_zero_left (d : Tensor) :
    d.map (fun x => (0:ℝ) * x) = List.replicate d.length 0 := by
  induction d with
  | nil => rfl
  | cons a l ih => simp [ih, List.replicate_succ]

theorem zipWith_add_rep : ∀ l : Tensor,
    List.zipWith (fun a b => a + b) (List.replicate l.length (0:ℝ)) l = l := by
  intro l
  induction l with
  | nil => rfl
  | cons a l ih => simp [List.replicate_succ, ih]

theorem zipWith_sub_rep : ∀ l : Tensor,
    List.zipWith (fun a b => a - b) l (List.replicate l.length (0:ℝ)) = l := by
  intro l
  induction l with
  | nil => rfl
  | cons a l ih => simp [List.replicate_succ, ih]

theorem specInit_zero_grad (cfg : Config) (d : Tensor) :
    specInit cfg d (List.replicate d.length 0)
      = { step := 0, v := 0, m := d.map (fun x => cfg.weightDecay * x), gradEMA := none } := by
  have hrep : List.replicate d.length (0:ℝ)
      = List.replicate (d.map (fun x => cfg.weightDecay * x)).length 0 := by
    simp
  simp only [specInit, List.map_replicate, zero_div]
  rw [hrep, zipWith_add_rep]
  simp [tfNorm_replicate_zero]

theorem specUpdate_zero_grad (cfg : Config) (d : Tensor) (s : State)
    (hv : s.v = 0) (hema : s.gradEMA = some 0 ∨ s.gradEMA = none)
    (hm : s.m.length = d.length) :
    (specUpdate cfg d (List.replicate d.length 0) s).2.v = 0
    ∧ (specUpdate cfg d (List.replicate d.length 0) s).2.gradEMA = some 0
    ∧ (specUpdate cfg d (List.replicate d.length 0) s).2.m
        = List.zipWith (fun a b => a + b) (s.m.map (fun x => cfg.beta1 * x))
            (d.map (fun x => cfg.weightDecay * x))
    ∧ (specUpdate cfg d (List.replicate d.length 0) s).2.m.length = d.length
    ∧ (specUpdate cfg d (List.replicate d.length 0) s).1
        = List.zipWith (fun a b => a - b) d
            (((specUpdate cfg d (List.replicate d.length 0) s).2.m).map
              (fun x => stepSizeAt cfg s.step * x)) := by
  have hrep : List.replicate d.length (0:ℝ)
      = List.replicate (d.map (fun x => cfg.weightDecay * x)).length 0 := by
    simp
  rcases hema with hema | hema <;>
  · simp only [specUpdate, hema, hv, List.map_replicate, zero_div, mul_zero, ite_self]
    rw [hrep, zipWith_add_rep]
    refine ⟨?_, ?_, ?_, ?_, ?_⟩ <;>
      first
        | trivial
        | rw [List.length_zipWith, List.length_map, List.length_map, hm, min_self]
        | norm_num [tfNorm_replicate_zero]

theorem zipWith_add_rep_rep (n : ℕ) :
    List.zipWith (fun a b => a + b) (List.replicate n (0:ℝ)) (List.replicate n 0)
      = List.replicate n 0 := by
  induction n with
  | zero => rfl
  | succ k ih => simp [List.replicate_succ, ih]

theorem specUpdate_zero_grad_wd0 (cfg : Config) (d : Tensor) (s : State)
    (hv : s.v = 0) (hema : s.gradEMA = some 0 ∨ s.gradEMA = none)
    (hwd : cfg.weightDecay = 0) (hm0 : s.m = List.replicate d.length 0) :
    (specUpdate cfg d (List.replicate d.length 0) s).2.m = List.replicate d.length 0
    ∧ (specUpdate cfg d (List.replicate d.length 0) s).1 = d := by
  have hm : s.m.length = d.length := by rw [hm0]; simp
  have h := specUpdate_zero_grad cfg d s hv hema hm
  have hmz : (specUpdate cfg d (List.replicate d.length 0) s).2.m
      = List.replicate d.length 0 := by
    rw [h.2.2.1, hm0, hwd, List.map_replicate, mul_zero, map_mul_zero_left,
      zipWith_add_rep_rep]
  refine ⟨hmz, ?_⟩
  rw [h.2.2.2.2, hmz, List.map_replicate, mul_zero, zipWith_sub_rep]

/-- The configuration field is never modified by `step()`. -/
theorem step_cfg (o : NovoGrad) : o.step.1.cfg = o.cfg := by
  unfold NovoGrad.step
  split
  · rfl
  · dsimp only
    split <;> rfl

/-- The caller writing an all-zero gradient, shaped like the data of each
parameter, before a call, as in the zero-gradient scenario of the spec. -/
def zeroGradLoad (o : NovoGrad) : NovoGrad :=
  { o with params := (o.params.map
      (fun p => { p with grad := some (List.replicate p.data.length 0) })) }

/-- n zero-gradient `step()` calls on a freshly constructed optimizer. -/
def zeroRun (ps : List Param) (cfg : Config) : ℕ → NovoGrad
  | 0 => NovoGrad.construct ps cfg
  | n + 1 => ((zeroGradLoad (zeroRun ps cfg n)).step).1

/-- Invariant relation of the zero-gradient scenario, per parameter. -/
def ZRel (cfg : Config) (p : Param) (os : Option State) : Prop :=
  ∃ s : State, os = some s ∧ s.v = 0 ∧ s.gradEMA = some 0
    ∧ s.m.length = p.data.length
    ∧ (cfg.weightDecay = 0 → s.m = List.replicate p.data.length 0)

/-- Invariant of the zero-gradient scenario after at least one call. -/
def ZInv (cfg : Config) (o : NovoGrad) : Prop :=
  o.cfg = cfg ∧ o.momentumInitialized = true
  ∧ List.Forall₂ (ZRel cfg) o.params o.states

theorem zrel_next (cfg : Config) (d : Tensor) (s : State)
    (hv : s.v = 0) (hema : s.gradEMA = some 0 ∨ s.gradEMA = none)
    (hm : s.m.length = d.length)
    (hwd : cfg.weightDecay = 0 → s.m = List.replicate d.length 0)
    (P : Param) (hPdata : P.data = (specUpdate cfg d (List.replicate d.length 0) s).1) :
    ZRel cfg P (some ((specUpdate cfg d (List.replicate d.length 0) s).2)) := by
  have h := specUpdate_zero_grad cfg d s hv hema hm
  have hdlen : P.data.length = d.length := by
    rw [hPdata, h.2.2.2.2, List.length_zipWith, List.length_map, h.2.2.2.1, min_self]
  refine ⟨_, rfl, h.1, h.2.1, ?_, ?_⟩
  · rw [h.2.2.2.1, hdlen]
  · intro hwd0
    have hw := specUpdate_zero_grad_wd0 cfg d s hv hema hwd0 (hwd hwd0)
    rw [hw.1, hdlen]

theorem zstep (cfg : Config) (o : NovoGrad) (hinv : ZInv cfg o) :
    (zeroGradLoad o).step.2 = none
    ∧ ZInv cfg ((zeroGradLoad o).step).1
    ∧ (cfg.weightDecay = 0 →
        ((zeroGradLoad o).step).1.params.map Param.data = o.params.map Param.data) := by
  obtain ⟨hcfg, hflag, hf⟩ := hinv
  have hflag' : (zeroGradLoad o).momentumInitialized = true := hflag
  have hcfg' : (zeroGradLoad o).cfg = cfg := hcfg
  have hready : (zeroGradLoad o).Ready := by
    unfold NovoGrad.Ready zeroGradLoad
    simp only [List.forall₂_map_left_iff]
    refine hf.imp ?_
    rintro p os ⟨s, rfl, hv, he, hm, hwd⟩
    exact ⟨s, List.replicate p.data.length 0, rfl, rfl, by simp, hm⟩
  have h := step_ready_spec (zeroGradLoad o) hflag' hready
  have hplen : (zeroGradLoad o).params.length = o.params.length := by
    simp [zeroGradLoad]
  have hsl : o.states.length = o.params.length := hf.length_eq.symm
  have hpoint : ∀ (i : ℕ) (p : Param), o.params[i]? = some p →
      ∃ s : State, o.states[i]? = some (some s) ∧ s.v = 0 ∧ s.gradEMA = some 0
        ∧ s.m.length = p.data.length
        ∧ (cfg.weightDecay = 0 → s.m = List.replicate p.data.length 0) := by
    intro i p hp
    obtain ⟨hip, hpe⟩ := List.getElem?_eq_some.mp hp
    have his : i < o.states.length := by rw [hsl]; exact hip
    have hrel := hf.get hip his
    rw [List.get_eq_getElem, List.get_eq_getElem, hpe] at hrel
    obtain ⟨s, hs, hv, he, hm, hwd⟩ := hrel
    exact ⟨s, by rw [List.getElem?_eq_getElem his, hs], hv, he, hm, hwd⟩
  have hres : ∀ (i : ℕ) (p : Param), o.params[i]? = some p →
      ∃ (s : State) (P : Param),
        (zeroGradLoad o).step.1.params[i]? = some P
        ∧ P.data = (specUpdate cfg p.data (List.replicate p.data.length 0) s).1
        ∧ (zeroGradLoad o).step.1.states[i]? =
            some (some ((specUpdate cfg p.data (List.replicate p.data.length 0) s).2))
        ∧ s.v = 0 ∧ s.gradEMA = some 0 ∧ s.m.length = p.data.length
        ∧ (cfg.weightDecay = 0 → s.m = List.replicate p.data.length 0) := by
    intro i p hp
    obtain ⟨s, hsome, hv, he, hm, hwd⟩ := hpoint i p hp
    have hp' : (zeroGradLoad o).params[i]? =
        some { p with grad := some (List.replicate p.data.length 0) } := by
      simp only [zeroGradLoad]
      rw [List.getElem?_map _ o.params i, hp]
      rfl
    have hs' : (zeroGradLoad o).states[i]? = some (some s) := hsome
    have hpt := h.2.2.2.2 i _ s (List.replicate p.data.length 0) hp' hs' rfl
    rw [hcfg'] at hpt
    exact ⟨s, _, hpt.1, rfl, hpt.2, hv, he, hm, hwd⟩
  refine ⟨h.1, ⟨?_, h.2.1, ?_⟩, ?_⟩
  · rw [step_cfg]; exact hcfg'
  · have hl1 : (zeroGradLoad o).step.1.params.length = o.params.length := by
      rw [h.2.2.1, hplen]
    have hl2 : (zeroGradLoad o).step.1.states.length = o.params.length := by
      rw [h.2.2.2.1, hplen]
    apply List.forall₂_of_length_eq_of_get (by rw [hl1, hl2])
    intro j h1 h2
    have hj : j < o.params.length := by rw [hl1] at h1; exact h1
    have hp : o.params[j]? = some o.params[j] := List.getElem?_eq_getElem hj
    obtain ⟨s, P, hP, hPdata, hS, hv, he, hm, hwd⟩ := hres j _ hp
    obtain ⟨hb1, he1⟩ := List.getElem?_eq_some.mp hP
    obtain ⟨hb2, he2⟩ := List.getElem?_eq_some.mp hS
    rw [List.get_eq_getElem, List.get_eq_getElem, he1, he2]
    exact zrel_next cfg o.params[j].data s hv (Or.inl he) hm hwd P hPdata
  · intro hwd0
    apply List.ext_getElem?
    intro j
    rw [List.getElem?_map _ _ j, List.getElem?_map _ _ j]
    by_cases hj : j < o.params.length
    · have hp : o.params[j]? = some o.params[j] := List.getElem?_eq_getElem hj
      obtain ⟨s, P, hP, hPdata, hS, hv, he, hm, hwd⟩ := hres j _ hp
      rw [hP, hp]
      have := (specUpdate_zero_grad_wd0 cfg o.params[j].data s hv (Or.inl he)
        hwd0 (hwd hwd0)).2
      simp [hPdata, this]
    · have h1 : (zeroGradLoad o).step.1.params[j]? = none := by
        apply List.getElem?_eq_none
        rw [h.2.2.1, hplen]
        omega
      have h2 : o.params[j]? = none := by
        apply List.getElem?_eq_none
        omega
      rw [h1, h2]

theorem zbase (ps : List Param) (cfg : Config) :
    (zeroGradLoad (NovoGrad.construct ps cfg)).step.2 = none
    ∧ ZInv cfg ((zeroGradLoad (NovoGrad.construct ps cfg)).step).1
    ∧ (cfg.weightDecay = 0 →
        ((zeroGradLoad (NovoGrad.construct ps cfg)).step).1.params.map Param.data
          = ps.map Param.data) := by
  have hflag : (zeroGradLoad (NovoGrad.construct ps cfg)).momentumInitialized = false := rfl
  have hlen : (zeroGradLoad (NovoGrad.construct ps cfg)).states.length
      = (zeroGradLoad (NovoGrad.construct ps cfg)).params.length := by
    simp [zeroGradLoad, NovoGrad.construct]
  have hgrads : ∀ p ∈ (zeroGradLoad (NovoGrad.construct ps cfg)).params, GradOK p := by
    intro p hp
    simp only [zeroGradLoad, NovoGrad.construct, List.mem_map] at hp
    obtain ⟨q, -, rfl⟩ := hp
    exact ⟨List.replicate q.data.length 0, rfl, by simp⟩
  have h := step_fresh_spec _ hflag hlen hgrads
  have hplen : (zeroGradLoad (NovoGrad.construct ps cfg)).params.length = ps.length := by
    simp [zeroGradLoad, NovoGrad.construct]
  have hs0 : ∀ d : Tensor, (specInit cfg d (List.replicate d.length 0)).v = 0
      ∧ ((specInit cfg d (List.replicate d.length 0)).gradEMA = some 0 ∨
          (specInit cfg d (List.replicate d.length 0)).gradEMA = none)
      ∧ (specInit cfg d (List.replicate d.length 0)).m.length = d.length
      ∧ (cfg.weightDecay = 0 →
          (specInit cfg d (List.replicate d.length 0)).m = List.replicate d.length 0) := by
    intro d
    rw [specInit_zero_grad]
    refine ⟨rfl, Or.inr rfl, by simp, ?_⟩
    intro hwd0
    simp only [hwd0]
    exact map_mul_zero_left d
  have hres : ∀ (i : ℕ) (p : Param), ps[i]? = some p →
      ∃ P : Param,
        (zeroGradLoad (NovoGrad.construct ps cfg)).step.1.params[i]? = some P
        ∧ P.data = (specUpdate cfg p.data (List.replicate p.data.length 0)
            (specInit cfg p.data (List.replicate p.data.length 0))).1
        ∧ (zeroGradLoad (NovoGrad.construct ps cfg)).step.1.states[i]? =
            some (some ((specUpdate cfg p.data (List.replicate p.data.length 0)
              (specInit cfg p.data (List.replicate p.data.length 0))).2)) := by
    intro i p hp
    have hp' : (zeroGradLoad (NovoGrad.construct ps cfg)).params[i]? =
        some { p with grad := some (List.replicate p.data.length 0) } := by
      simp only [zeroGradLoad, NovoGrad.construct]
      rw [List.getElem?_map _ ps i, hp]
      rfl
    have hpt := h.2.2.2.2 i _ (List.replicate p.data.length 0) hp' rfl
    exact ⟨_, hpt.1, rfl, hpt.2⟩
  refine ⟨h.1, ⟨by rw [step_cfg]; rfl, h.2.1, ?_⟩, ?_⟩
  · have hl1 : (zeroGradLoad (NovoGrad.construct ps cfg)).step.1.params.length = ps.length := by
      rw [h.2.2.1, hplen]
    have hl2 : (zeroGradLoad (NovoGrad.construct ps cfg)).step.1.states.length = ps.length := by
      rw [h.2.2.2.1, hplen]
    apply List.forall₂_of_length_eq_of_get (by rw [hl1, hl2])
    intro j h1 h2
    have hj : j < ps.length := by rw [hl1] at h1; exact h1
    have hp : ps[j]? = some ps[j] := List.getElem?_eq_getElem hj
    obtain ⟨P, hP, hPdata, hS⟩ := hres j _ hp
    obtain ⟨hb1, he1⟩ := List.getElem?_eq_some.mp hP
    obtain ⟨hb2, he2⟩ := List.getElem?_eq_some.mp hS
    rw [List.get_eq_getElem, List.get_eq_getElem, he1, he2]
    obtain ⟨hv0, hema0, hm0, hwd0⟩ := hs0 (ps[j].data)
    exact zrel_next cfg ps[j].data _ hv0 hema0 hm0 hwd0 P hPdata
  · intro hwd0
    apply List.ext_getElem?
    intro j
    rw [List.getElem?_map _ _ j, List.getElem?_map _ _ j]
    by_cases hj : j < ps.length
    · have hp : ps[j]? = some ps[j] := List.getElem?_eq_getElem hj
      obtain ⟨P, hP, hPdata, hS⟩ := hres j _ hp
      rw [hP, hp]
      obtain ⟨hv0, hema0, hm0, hwdm⟩ := hs0 (ps[j].data)
      have := (specUpdate_zero_grad_wd0 cfg ps[j].data _ hv0 hema0 hwd0 (hwdm hwd0)).2
      simp [hPdata, this]
    · have h1 : (zeroGradLoad (NovoGrad.construct ps cfg)).step.1.params[j]? = none := by
        apply List.getElem?_eq_none
        rw [h.2.2.1, hplen]
        omega
      have h2 : ps[j]? = none := by
        apply List.getElem?_eq_none
        omega
      rw [h1, h2]

theorem zeroRun_inv (ps : List Param) (cfg : Config) : ∀ n : ℕ,
    (zeroGradLoad (zeroRun ps cfg n)).step.2 = none
    ∧ ZInv cfg (zeroRun ps cfg (n + 1))
    ∧ (cfg.weightDecay = 0 →
        (zeroRun ps cfg (n + 1)).params.map Param.data = ps.map Param.data)
  | 0 => zbase ps cfg
  | n + 1 => by
    have ih := zeroRun_inv ps cfg n
    have hz := zstep cfg (zeroRun ps cfg (n + 1)) ih.2.1
    refine ⟨hz.1, hz.2.1, ?_⟩
    intro hwd0
    have : (zeroRun ps cfg (n + 2)).params.map Param.data
        = (zeroRun ps cfg (n + 1)).params.map Param.data := hz.2.2 hwd0
    rw [this]
    exact ih.2.2 hwd0

theorem forall₂_mem_right {α β : Type _} {R : α → β → Prop} :
    ∀ {as : List α} {bs : List β}, List.Forall₂ R as bs → ∀ b ∈ bs, ∃ a, R a b := by
  intro as bs h
  induction h with
  | nil => intro b hb; cases hb
  | cons h1 h2 ih =>
    intro b hb
    rcases List.mem_cons.mp hb with rfl | hb2
    · exact ⟨_, h1⟩
    · exact ih b hb2

/-- Intended-semantics zero-gradient behavior (coercion bug of lines 22 and
46 repaired): with a strictly positive epsilon and all-zero gradients on
every call, no call reports an error; every state keeps `secondMoment = 0`
and `gradientEMA = 0`, so every divisor `sqrt(...) + eps` of the update
equals `eps` and is nonzero; and with `weightDecay = 0` the `data` of every
parameter is unchanged by every call. In the program as written the
data-unchanged part fails: see the code-bug theorem for C5 below. -/
theorem novograd_zero_grad_safe (ps : List Param) (cfg : Config)
    (heps : 0 < cfg.eps) (n : ℕ) :
    (zeroGradLoad (zeroRun ps cfg n)).step.2 = none
    ∧ (∀ os ∈ (zeroRun ps cfg (n + 1)).states, ∃ s : State, os = some s
        ∧ s.v = 0 ∧ s.gradEMA = some 0
        ∧ Real.sqrt s.v + cfg.eps ≠ 0
        ∧ (∀ e : ℝ, s.gradEMA = some e → Real.sqrt e + cfg.eps ≠ 0))
    ∧ (cfg.weightDecay = 0 →
        (zeroRun ps cfg (n + 1)).params.map Param.data = ps.map Param.data) := by
  have h := zeroRun_inv ps cfg n
  refine ⟨h.1, ?_, h.2.2⟩
  intro os hos
  obtain ⟨p, s, hsome, hv, hema, -, -⟩ := forall₂_mem_right h.2.1.2.2 os hos
  refine ⟨s, hsome, hv, hema, ?_, ?_⟩
  · rw [hv, Real.sqrt_zero, zero_add]
    exact ne_of_gt heps
  · intro e hee
    rw [hema] at hee
    cases hee
    rw [Real.sqrt_zero, zero_add]
    exact ne_of_gt heps

theorem novograd_zero_grad_safe_inst :
    0 < ({} : Config).eps
    ∧ (zeroGradLoad (zeroRun [pW] {} 0)).step.2 = none :=
  ⟨by norm_num, (novograd_zero_grad_safe [pW] {} (by norm_num) 0).1⟩

theorem initParam_state_facts (cfg : Config) (p : Param) (s' : State)
    (h : initParam cfg p = .ok s') :
    s'.step = 0 ∧ s'.gradEMA = none ∧ 0 ≤ s'.v := by
  simp only [initParam] at h
  repeat' split at h
  all_goals cases h
  exact ⟨rfl, rfl, sq_nonneg _⟩

theorem updateParam_state_facts (cfg : Config) (p : Param) (s : State)
    (r : Param × State) (h : updateParam cfg p s = .ok r)
    (hb0 : 0 ≤ cfg.beta2) (hb1 : cfg.beta2 ≤ 1)
    (hv : 0 ≤ s.v) (he : ∀ e0 : ℝ, s.gradEMA = some e0 → 0 ≤ e0) :
    r.2.step = s.step + 1
    ∧ (∃ e1 : ℝ, r.2.gradEMA = some e1 ∧ 0 ≤ e1)
    ∧ 0 ≤ r.2.v := by
  cases hge : s.gradEMA with
  | none =>
    simp only [updateParam, hge] at h
    repeat' split at h
    all_goals cases h
    all_goals refine ⟨rfl, ⟨_, rfl, sq_nonneg _⟩, ?_⟩
    all_goals nlinarith [sq_nonneg (tfNorm ((Param.grad p).getD [])),
      mul_nonneg hv hb0, sq_nonneg (1 : ℝ)]
  | some e0 =>
    have he0 := he e0 hge
    simp only [updateParam, hge] at h
    repeat' split at h
    all_goals cases h
    all_goals refine ⟨rfl, ⟨_, rfl, ?_⟩, ?_⟩
    all_goals nlinarith [sq_nonneg (tfNorm ((Param.grad p).getD [])),
      mul_nonneg hv hb0, mul_nonneg he0 hb0]

theorem runInit_states_mem (cfg : Config) :
    ∀ (ps : List Param) (old : List (Option State)) (os : Option State),
      os ∈ (runInit cfg ps old).1 →
      os ∈ old ∨ ∃ (p : Param) (s' : State), initParam cfg p = .ok s' ∧ os = some s'
  | [], _, _ => fun h => Or.inl h
  | p :: ps, old, os => by
    intro h
    cases hi : initParam cfg p with
    | error e => simp only [runInit, hi] at h; exact Or.inl h
    | ok s1 =>
      simp only [runInit, hi] at h
      rcases List.mem_cons.mp h with rfl | h2
      · exact Or.inr ⟨p, s1, hi, rfl⟩
      · rcases runInit_states_mem cfg ps old.tail os h2 with h3 | h3
        · exact Or.inl (List.mem_of_mem_tail h3)
        · exact Or.inr h3

theorem runUpdate_states_mem (cfg : Config) :
    ∀ (ps : List Param) (sts : List (Option State)) (os : Option State),
      os ∈ (runUpdate cfg ps sts).2.1 →
      os ∈ sts ∨ ∃ (p : Param) (s : State) (r : Param × State),
        some s ∈ sts ∧ updateParam cfg p s = .ok r ∧ os = some r.2
  | [], _, os => fun h => Or.inl h
  | _ :: _, [], os => fun h => absurd h (List.not_mem_nil os)
  | _ :: _, none :: _, os => fun h => Or.inl h
  | p :: ps, some s :: sts, os => by
    intro h
    cases hu : updateParam cfg p s with
    | error e => simp only [runUpdate, hu] at h; exact Or.inl h
    | ok r =>
      simp only [runUpdate, hu] at h
      rcases List.mem_cons.mp h with rfl | h2
      · exact Or.inr ⟨p, s, r, List.mem_cons_self (some s) sts, hu, rfl⟩
      · rcases runUpdate_states_mem cfg ps sts os h2 with h3 | h3
        · exact Or.inl (List.mem_cons_of_mem _ h3)
        · obtain ⟨p2, s2, r2, hmem, hu2, heq⟩ := h3
          exact Or.inr ⟨p2, s2, r2, List.mem_cons_of_mem _ hmem, hu2, heq⟩

/-- The shape invariant of the stored per-parameter scalars: whenever a state
entry is present, `secondMoment` is a nonnegative scalar, `gradientEMA` is a
nonnegative scalar whenever set, and `gradientEMA` is set as soon as the
stepCount of the entry reaches 1 (one update applied). -/
def ScalarInv (o : NovoGrad) : Prop :=
  ∀ os ∈ o.states, ∀ s : State, os = some s →
    0 ≤ s.v ∧ (∀ e : ℝ, s.gradEMA = some e → 0 ≤ e) ∧ (1 ≤ s.step → s.gradEMA.isSome)

theorem runUpdate_scalar (cfg : Config) (hb0 : 0 ≤ cfg.beta2) (hb1 : cfg.beta2 ≤ 1)
    (ps : List Param) (sts : List (Option State))
    (hok : ∀ os ∈ sts, ∀ s : State, os = some s →
      0 ≤ s.v ∧ (∀ e : ℝ, s.gradEMA = some e → 0 ≤ e) ∧ (1 ≤ s.step → s.gradEMA.isSome)) :
    ∀ os ∈ (runUpdate cfg ps sts).2.1, ∀ s : State, os = some s →
      0 ≤ s.v ∧ (∀ e : ℝ, s.gradEMA = some e → 0 ≤ e) ∧ (1 ≤ s.step → s.gradEMA.isSome) := by
  intro os hos s hs
  rcases runUpdate_states_mem cfg ps sts os hos with h | ⟨p, s0, r, hmem, hu, heq⟩
  · exact hok os h s hs
  · subst heq
    cases hs
    have h0 := hok (some s0) hmem s0 rfl
    have hf := updateParam_state_facts cfg p s0 r hu hb0 hb1 h0.1 h0.2.1
    obtain ⟨e1, he1, he1n⟩ := hf.2.1
    refine ⟨hf.2.2, ?_, ?_⟩
    · intro e hee
      rw [he1] at hee
      cases hee
      exact he1n
    · intro _
      rw [he1]
      rfl

theorem runInit_scalar (cfg : Config)
    (old : List (Option State)) (ps : List Param)
    (hok : ∀ os ∈ old, ∀ s : State, os = some s →
      0 ≤ s.v ∧ (∀ e : ℝ, s.gradEMA = some e → 0 ≤ e) ∧ (1 ≤ s.step → s.gradEMA.isSome)) :
    ∀ os ∈ (runInit cfg ps old).1, ∀ s : State, os = some s →
      0 ≤ s.v ∧ (∀ e : ℝ, s.gradEMA = some e → 0 ≤ e) ∧ (1 ≤ s.step → s.gradEMA.isSome) := by
  intro os hos s hs
  rcases runInit_states_mem cfg ps old os hos with h | ⟨p, s', hi, heq⟩
  · exact hok os h s hs
  · subst heq
    cases hs
    obtain ⟨hstep, hema, hv⟩ := initParam_state_facts cfg p s hi
    refine ⟨hv, ?_, ?_⟩
    · intro e hee
      rw [hema] at hee
      cases hee
    · intro h1
      rw [hstep] at h1
      cases h1

/-- C10: the stored `secondMoment` and `gradientEMA` are scalar values (they
are reals in this embedding, mirroring that the code computes them only via
`tf.norm(...).square()`, a zero-dimensional tensor, and its EMAs — never an
elementwise tensor of the parameter shape); they are nonnegative, being
derived from squared tensor norms; no state exists at construction, and once
an entry has been updated (`stepCount >= 1`) its `gradientEMA` is set and
every `step()` call, on every path, preserves all of this. -/
theorem novograd_scalar_state_invariant :
    (∀ (ps : List Param) (cfg : Config), ScalarInv (NovoGrad.construct ps cfg))
    ∧ (∀ o : NovoGrad, 0 ≤ o.cfg.beta2 → o.cfg.beta2 ≤ 1 →
        ScalarInv o → ScalarInv o.step.1) := by
  constructor
  · intro ps cfg os hos s hs
    rw [List.eq_of_mem_replicate hos] at hs
    cases hs
  · intro o hb0 hb1 hinv
    unfold NovoGrad.step
    dsimp only
    split
    · exact runUpdate_scalar o.cfg hb0 hb1 o.params o.states hinv
    · split
      · exact runInit_scalar o.cfg o.states o.params hinv
      · exact runUpdate_scalar o.cfg hb0 hb1 o.params _
          (runInit_scalar o.cfg o.states o.params hinv)

theorem novograd_scalar_state_invariant_inst :
    (0 ≤ oW.cfg.beta2 ∧ oW.cfg.beta2 ≤ 1 ∧ ScalarInv oW) ∧ ScalarInv oW.step.1 := by
  have hinv : ScalarInv oW := by
    intro os hos s hs
    rcases List.mem_singleton.mp hos with rfl
    cases hs
    refine ⟨by norm_num [sW], ?_, fun _ => rfl⟩
    intro e hee
    cases hee
    norm_num
  exact ⟨⟨by norm_num [oW], by norm_num [oW], hinv⟩,
    novograd_scalar_state_invariant.2 oW (by norm_num [oW]) (by norm_num [oW]) hinv⟩

/-- Two parameters used in the torn-update counterexample. -/
def pA : Param := { data := [1], grad := some [0] }

def pB : Param := { data := [2], grad := some [0] }

/-- A valid configuration with rational square roots along the first call. -/
def cfg3 : Config :=
  { lr := 1, beta1 := 1/2, beta2 := 3/4, eps := 1/2, weightDecay := 0, gradAveraging := false }

def o3a : NovoGrad := NovoGrad.construct [pA, pB] cfg3

def o3b : NovoGrad := o3a.step.1

/-- The caller supplies a fresh gradient for the first parameter before the
second call but forgets to set the gradient of the second parameter. -/
def o3c : NovoGrad := o3b.setGrads [some [1], none]

theorem o3_first_state (d : Tensor) :
    (specUpdate cfg3 d (List.replicate d.length 0) (specInit cfg3 d (List.replicate d.length 0))).2.v = 0
    ∧ (specUpdate cfg3 d (List.replicate d.length 0) (specInit cfg3 d (List.replicate d.length 0))).2.gradEMA = some 0
    ∧ (specUpdate cfg3 d (List.replicate d.length 0) (specInit cfg3 d (List.replicate d.length 0))).2.m = List.replicate d.length 0
    ∧ (specUpdate cfg3 d (List.replicate d.length 0) (specInit cfg3 d (List.replicate d.length 0))).1 = d := by
  have hwd : cfg3.weightDecay = 0 := rfl
  have hv : (specInit cfg3 d (List.replicate d.length 0)).v = 0 := by
    rw [specInit_zero_grad]
  have hema : (specInit cfg3 d (List.replicate d.length 0)).gradEMA = some 0
      ∨ (specInit cfg3 d (List.replicate d.length 0)).gradEMA = none := by
    rw [specInit_zero_grad]; exact Or.inr rfl
  have hm0 : (specInit cfg3 d (List.replicate d.length 0)).m = List.replicate d.length 0 := by
    rw [specInit_zero_grad]
    show d.map (fun x => cfg3.weightDecay * x) = _
    rw [hwd]
    exact map_mul_zero_left d
  have hm : (specInit cfg3 d (List.replicate d.length 0)).m.length = d.length := by
    rw [hm0]; simp
  have h := specUpdate_zero_grad cfg3 d _ hv hema hm
  have h0 := specUpdate_zero_grad_wd0 cfg3 d _ hv hema hwd hm0
  exact ⟨h.1, h.2.1, h0.1, h0.2⟩

theorem specUpdate_q1_moves (s : State) (hv : s.v = 0) (he : s.gradEMA = some 0)
    (hm : s.m = [0]) (hst : s.step = 1) :
    (specUpdate cfg3 [1] [1] s).1 ≠ [1] := by
  have hsig : 0 < stepSizeAt cfg3 1 := by
    rw [stepSizeAt]
    have h7 : (0:ℝ) < Real.sqrt (1 - cfg3.beta2 ^ (1+1)) :=
      Real.sqrt_pos.mpr (by norm_num [cfg3])
    have hden : (0:ℝ) < 1 - cfg3.beta1 ^ (1+1) := by norm_num [cfg3]
    have hlr : (0:ℝ) < cfg3.lr := by norm_num [cfg3]
    exact div_pos (mul_pos hlr h7) hden
  have ht1 : tfNorm [(1:ℝ)] ^ 2 = 1 := by rw [tfNorm_sq]; norm_num [sumSq]
  simp only [specUpdate, he, hv, hm, hst]
  intro heq
  norm_num [cfg3, ht1] at heq
  rcases heq with h | h | h
  · exact absurd h (ne_of_gt hsig)
  · have h4 : (0:ℝ) ≤ (Real.sqrt 4)⁻¹ := inv_nonneg.mpr (Real.sqrt_nonneg 4)
    linarith
  · have h4 : (0:ℝ) ≤ (Real.sqrt 4)⁻¹ := inv_nonneg.mpr (Real.sqrt_nonneg 4)
    have h5 : (0:ℝ) ≤ Real.sqrt (tfNorm [((Real.sqrt 4)⁻¹ + 1/2)⁻¹] ^ 2) :=
      Real.sqrt_nonneg _
    nlinarith

/-- The state persisted for the first respectively second parameter by the
first (all-zero-gradient) call of the counterexample scenario. -/
def SA : State := (specUpdate cfg3 [1] [0] (specInit cfg3 [1] [0])).2

def SB : State := (specUpdate cfg3 [2] [0] (specInit cfg3 [2] [0])).2

theorem o3a_grads : ∀ p ∈ o3a.params, GradOK p := by
  intro p hp
  simp only [o3a, NovoGrad.construct, List.mem_cons, List.mem_singleton] at hp
  rcases hp with rfl | rfl | h
  · exact ⟨[0], rfl, rfl⟩
  · exact ⟨[0], rfl, rfl⟩
  · cases h

theorem o3b_lists : o3b.params = [pA, pB] ∧ o3b.states = [some SA, some SB] := by
  have h := step_fresh_spec o3a rfl rfl o3a_grads
  have h0 := h.2.2.2.2 0 pA [0] rfl rfl
  have h1 := h.2.2.2.2 1 pB [0] rfl rfl
  have hdA : (specUpdate o3a.cfg pA.data [0] (specInit o3a.cfg pA.data [0])).1 = [1] :=
    (o3_first_state [1]).2.2.2
  have hdB : (specUpdate o3a.cfg pB.data [0] (specInit o3a.cfg pB.data [0])).1 = [2] :=
    (o3_first_state [2]).2.2.2
  have hlp : o3b.params.length = 2 := h.2.2.1
  have hls : o3b.states.length = 2 := h.2.2.2.1
  constructor
  · apply List.ext_getElem?
    intro i
    match i with
    | 0 =>
      rw [show o3b.params[0]? = _ from h0.1, hdA]
      rfl
    | 1 =>
      rw [show o3b.params[1]? = _ from h1.1, hdB]
      rfl
    | (n + 2) =>
      rw [List.getElem?_eq_none (by rw [hlp]; omega),
        List.getElem?_eq_none (by simp)]
  · apply List.ext_getElem?
    intro i
    match i with
    | 0 => exact h0.2
    | 1 => exact h1.2
    | (n + 2) =>
      rw [List.getElem?_eq_none (by rw [hls]; omega),
        List.getElem?_eq_none (by simp)]

theorem SA_facts : SA.v = 0 ∧ SA.gradEMA = some 0 ∧ SA.m = [0] ∧ SA.step = 1 :=
  ⟨(o3_first_state [1]).1, (o3_first_state [1]).2.1, (o3_first_state [1]).2.2.1, rfl⟩

/-- C3 counterexample: a reachable two-parameter scenario in which the second
`step()` call finds the `grad` of the second parameter unset. The call does raise
the error synchronously, but only after the `data` of the first parameter has
already been written: the claimed all-or-nothing behavior (validation of all
parameters before any data write) does not hold. -/
theorem novograd_step_half_done_update_on_missing_grad :
    o3c.step.2 = some JsError.tensorArgError
    ∧ o3c.step.1.params[0]? ≠ o3c.params[0]?
    ∧ o3c.step.1.params[1]? = o3c.params[1]? := by
  obtain ⟨hp3b, hs3b⟩ := o3b_lists
  have hq : o3c.params
      = [{ data := [1], grad := some [1] }, { data := [2], grad := none }] := by
    show (o3b.setGrads [some [1], none]).params = _
    simp only [NovoGrad.setGrads]
    rw [hp3b]
    rfl
  have hst : o3c.states = [some SA, some SB] := hs3b
  have hflag : o3c.momentumInitialized = true := (step_fresh_spec o3a rfl rfl o3a_grads).2.1
  have hcfg : o3c.cfg = cfg3 := step_cfg o3a
  obtain ⟨hSAv, hSAe, hSAm, hSAs⟩ := SA_facts
  have hu1 : updateParam cfg3 { data := [1], grad := some [1] } SA =
      .ok ({ data := (specUpdate cfg3 [1] [1] SA).1, grad := some [1] },
           (specUpdate cfg3 [1] [1] SA).2) :=
    updateParam_eq cfg3 { data := [1], grad := some [1] } SA [1] rfl rfl (by rw [hSAm]; rfl)
  have hu2 : updateParam cfg3 { data := [2], grad := none } SB
      = .error .tensorArgError := rfl
  have hrun : runUpdate cfg3 o3c.params o3c.states =
      ([{ data := (specUpdate cfg3 [1] [1] SA).1, grad := some [1] },
        { data := [2], grad := none }],
       [some (specUpdate cfg3 [1] [1] SA).2, some SB],
       some JsError.tensorArgError) := by
    rw [hq, hst]
    simp only [runUpdate, hu1, hu2]
  have hstep : o3c.step =
      ({ o3c with params := (runUpdate cfg3 o3c.params o3c.states).1,
                  states := (runUpdate cfg3 o3c.params o3c.states).2.1 },
       (runUpdate cfg3 o3c.params o3c.states).2.2) := by
    simp only [NovoGrad.step, hflag, if_true, hcfg]
  refine ⟨?_, ?_, ?_⟩
  · rw [hstep, hrun]
  · rw [hstep, hrun, hq]
    intro hcontra
    simp only [List.getElem?_cons_zero, Option.some.injEq, Param.mk.injEq] at hcontra
    exact specUpdate_q1_moves SA hSAv hSAe hSAm hSAs hcontra.1
  · rw [hstep, hrun, hq]
    rfl

/-- A JavaScript number: a finite real value or NaN. Reals stand in for
finite floats as elsewhere in this file; NaN is represented explicitly
because `this.weightDecay * param.data` (lines 22 and 46) multiplies a
number with a tf.Tensor object, which ToPrimitive coerces to NaN, making
that product NaN for every weightDecay, including the default 0. -/
inductive JsNum where
  | num : ℝ → JsNum
  | nan : JsNum

def JsNum.add : JsNum → JsNum → JsNum
  | .num a, .num b => .num (a + b)
  | _, _ => .nan

def JsNum.sub : JsNum → JsNum → JsNum
  | .num a, .num b => .num (a - b)
  | _, _ => .nan

def JsNum.mul : JsNum → JsNum → JsNum
  | .num a, .num b => .num (a * b)
  | _, _ => .nan

/-- Division with NaN propagation. The real quotient keeps the same
division-by-zero convention as the rest of the file; no divisor is zero in
any evaluated scenario, since the configurations used have `eps > 0`. -/
def JsNum.div : JsNum → JsNum → JsNum
  | .num a, .num b => .num (a / b)
  | _, _ => .nan

def JsNum.sqrt : JsNum → JsNum
  | .num a => .num (Real.sqrt a)
  | .nan => .nan

/-- Tensor of JavaScript numbers. -/
abbrev JsTensor := List JsNum

def sumSqJs (t : JsTensor) : JsNum :=
  t.foldr (fun x acc => (x.mul x).add acc) (.num 0)

def tfNormJs (t : JsTensor) : JsNum := JsNum.sqrt (sumSqJs t)

/-- The JS expression `this.weightDecay * param.data` exactly as JavaScript
evaluates it: a number-times-Tensor product, NaN by ToPrimitive coercion,
for every weightDecay. -/
def wdCoerce (_weightDecay : ℝ) (_data : JsTensor) : JsNum := .nan

/-- Binary elementwise tensor op over JS numbers, with the same tfjs
broadcasting behavior as `bcast`. -/
def bcastJs (f : JsNum → JsNum → JsNum) (a b : JsTensor) : Except JsError JsTensor :=
  if a.length = b.length then .ok (List.zipWith f a b)
  else
    match a, b with
    | [x], b => .ok (b.map (fun y => f x y))
    | a, [y] => .ok (a.map (fun x => f x y))
    | _, _ => .error .broadcastError

structure JsParam where
  data : JsTensor
  grad : Option JsTensor

structure JsState where
  step : ℕ
  v : JsNum
  m : JsTensor
  gradEMA : Option JsNum

structure JsNovoGrad where
  cfg : Config
  params : List JsParam
  momentumInitialized : Bool
  states : List (Option JsState)

def JsNovoGrad.construct (params : List JsParam) (cfg : Config) : JsNovoGrad :=
  { cfg := cfg
    params := params
    momentumInitialized := false
    states := List.replicate params.length none }

/-- The initialization pass body (lines 20 to 25) exactly as JavaScript
evaluates it: the `.add(this.weightDecay * param.data)` adds the NaN scalar
`wdCoerce`, so `m` is all-NaN. -/
def initParamJs (cfg : Config) (p : JsParam) : Except JsError JsState :=
  match p.grad with
  | none => .error .tensorArgError
  | some g =>
    let n := tfNormJs g
    let v := n.mul n
    let scaled := g.map (fun x => x.div ((JsNum.sqrt v).add (.num cfg.eps)))
    let m := scaled.map (fun x => x.add (wdCoerce cfg.weightDecay p.data))
    .ok { step := 0, v := v, m := m, gradEMA := none }

/-- The update loop body (lines 29 to 58) exactly as JavaScript evaluates
it: the norm/EMA scalar chain stays NaN-free, but line 46 adds the NaN
scalar `wdCoerce`, so the new `m` and the written `data` are all-NaN. -/
def updateParamJs (cfg : Config) (p : JsParam) (s : JsState) :
    Except JsError (JsParam × JsState) :=
  match p.grad with
  | none => .error .tensorArgError
  | some grad0 =>
    let n := tfNormJs grad0
    let g2 := n.mul n
    let gradEMA :=
      match s.gradEMA with
      | none => g2
      | some e => (e.mul (.num cfg.beta2)).add (g2.mul (.num (1 - cfg.beta2)))
    let grad1 := grad0.map (fun x => x.div ((JsNum.sqrt gradEMA).add (.num cfg.eps)))
    let grad2 :=
      if cfg.gradAveraging then grad1.map (fun x => x.mul (.num (1 - cfg.beta1))) else grad1
    let n2 := tfNormJs grad2
    let g2b := n2.mul n2
    let v := (s.v.mul (.num cfg.beta2)).add (g2b.mul (.num (1 - cfg.beta2)))
    let scaled := grad2.map (fun x => x.div ((JsNum.sqrt v).add (.num cfg.eps)))
    let inner := scaled.map (fun x => x.add (wdCoerce cfg.weightDecay p.data))
    match bcastJs (fun x y => x.add y) (s.m.map (fun x => x.mul (.num cfg.beta1))) inner with
    | .error e => .error e
    | .ok m =>
      let stepSize := stepSizeAt cfg s.step
      match bcastJs (fun x y => x.sub y) p.data (m.map (fun x => x.mul (.num stepSize))) with
      | .error e => .error e
      | .ok data1 =>
        .ok ({ p with data := data1 },
             { step := s.step + 1, v := v, m := m, gradEMA := some gradEMA })

def runInitJs (cfg : Config) :
    List JsParam → List (Option JsState) → List (Option JsState) × Option JsError
  | [], old => (old, none)
  | p :: ps, old =>
    match initParamJs cfg p with
    | .error e => (old, some e)
    | .ok s =>
      let r := runInitJs cfg ps old.tail
      (some s :: r.1, r.2)

def runUpdateJs (cfg : Config) :
    List JsParam → List (Option JsState) →
      List JsParam × List (Option JsState) × Option JsError
  | [], sts => ([], sts, none)
  | p :: ps, [] => (p :: ps, [], some .stateDestructureError)
  | p :: ps, none :: sts => (p :: ps, none :: sts, some .stateDestructureError)
  | p :: ps, some s :: sts =>
    match updateParamJs cfg p s with
    | .error e => (p :: ps, some s :: sts, some e)
    | .ok (p1, s1) =>
      let r := runUpdateJs cfg ps sts
      (p1 :: r.1, some s1 :: r.2.1, r.2.2)

/-- The `step()` method exactly as JavaScript evaluates it. -/
def JsNovoGrad.step (o : JsNovoGrad) : JsNovoGrad × Option JsError :=
  if o.momentumInitialized then
    let r := runUpdateJs o.cfg o.params o.states
    ({ o with params := r.1, states := r.2.1 }, r.2.2)
  else
    let ri := runInitJs o.cfg o.params o.states
    match ri.2 with
    | some e => ({ o with states := ri.1 }, some e)
    | none =>
      let r := runUpdateJs o.cfg o.params ri.1
      ({ o with params := r.1, states := r.2.1, momentumInitialized := true }, r.2.2)

/-- One parameter with value 1 and gradient 1, the failing input for the
weight-decay coercion bug. -/
def pJ : JsParam := { data := [.num 1], grad := some [.num 1] }

def oJ : JsNovoGrad := JsNovoGrad.construct [pJ] {}

/-- One parameter with value 1 and an all-zero gradient. -/
def pZ : JsParam := { data := [.num 1], grad := some [.num 0] }

def oZ : JsNovoGrad := JsNovoGrad.construct [pZ] {}

/-- C1: code bug. At the failing input (one parameter, `data = [1]`,
`grad = [1]`, default configuration with `weightDecay = 0`), the program as
written does not update the parameter by the spec recurrence: JavaScript
evaluates `this.weightDecay * param.data` (line 46) to NaN, so the call
succeeds but persists an all-NaN `firstMoment` and overwrites `data` with
all-NaN — not the real-valued `data - stepSize * m'` that the claim (and
spec section 4.1) prescribe, whose value `specUpdate` gives. -/
theorem novograd_nan_update_at_default_config :
    oJ.step.2 = none
    ∧ oJ.step.1.params.map JsParam.data = [[JsNum.nan]]
    ∧ (∃ s : JsState, oJ.step.1.states[0]? = some (some s) ∧ s.m = [JsNum.nan])
    ∧ [JsNum.nan] ≠
        ((specUpdate {} [1] [1] (specInit {} [1] [1])).1).map JsNum.num := by
  refine ⟨rfl, rfl, ⟨_, rfl, rfl⟩, ?_⟩
  intro h
  simp [specUpdate, specInit] at h

/-- C5: code bug. With an all-zero gradient and `weightDecay = 0` (default
configuration), the first `step()` call still overwrites `data = [1]` with
all-NaN, because line 22 computes `0 * param.data` as NaN by number-Tensor
coercion and the NaN reaches `data` through `m`; the claim (and the spec)
say `data` remains unchanged. The divisor chain itself stays NaN-free, but
the data-unchanged part fails on the program as written. -/
theorem novograd_nan_zero_grad_data_overwritten :
    oZ.params.map JsParam.data = [[JsNum.num 1]]
    ∧ oZ.step.2 = none
    ∧ oZ.step.1.params.map JsParam.data = [[JsNum.nan]]
    ∧ ([[JsNum.nan]] : List JsTensor) ≠ [[JsNum.num 1]] := by
  refine ⟨rfl, rfl, rfl, ?_⟩
  intro h
  simp at h

/-- C9: code bug. The initialization pass does seed a state that the same
call reads as the prior state, but its stored `m0` is not
`grad / (sqrt(v0) + eps) + weightDecay * data`: at the failing input
(`data = [1]`, `grad = [1]`, defaults) line 22 makes `m0` all-NaN, and the
first persisted `firstMoment` is all-NaN as well, not the real value that
`specInit` (the transcription of the claimed formula) gives. -/
theorem novograd_nan_first_moment_seed :
    (∃ s : JsState, initParamJs {} pJ = .ok s ∧ s.m = [JsNum.nan])
    ∧ (∃ s : JsState, oJ.step.1.states[0]? = some (some s)
        ∧ s.step = 1 ∧ s.m = [JsNum.nan])
    ∧ [JsNum.nan] ≠ ((specInit {} [1] [1]).m).map JsNum.num := by
  refine ⟨⟨_, rfl, rfl⟩, ⟨_, rfl, rfl, rfl⟩, ?_⟩
  intro h
  simp [specInit] at h
